import Mathlib

set_option maxRecDepth 10000

/-!
Verification of the cwwvb WWVB decoder: a shallow embedding of the C++
sources decoder.h and decoder.cpp, with theorems about the circular bit
and symbol buffers, the second-boundary tracker, the symbol decoder, the
health bookkeeping, the frame decoder and the calendar arithmetic.
-/

/- Compile-time sizes: the default template parameters of WWVBDecoder,
   the instantiation the program uses. -/

def SUBSEC : Nat := 50

def SYMBOLS : Nat := 60

def HISTORY : Nat := 40

def BUFFER : Nat := SUBSEC * HISTORY

/-- Conversion of a C int value to int8_t (two's complement wrap). -/
def int8_wrap (x : Int) : Int := (x + 128) % 256 - 128

/-- Conversion of a C int value to int16_t (two's complement wrap). -/
def int16_wrap (x : Int) : Int := (x + 32768) % 65536 - 32768

/-- The bit-packed circular buffer circular_bit_array of decoder.h.  The
uint32 word array is modelled by its flat bit content: bit j of word w of
the source is data (32 * w + j).  Both source operations address bit
(32 * (k / 32) + k % 32) = k for a flat index k, so the translation below
uses the flat index directly.  shift is the write cursor (uint16_t). -/
structure circular_bit_array (N : Nat) where
  data : Nat → Bool
  shift : Nat

/-- circular_bit_array::at from decoder.h, translated branch for branch:
the wrap subtraction is applied only when i + shift is strictly greater
than N, exactly as in the source. -/
def circular_bit_array.at_ {N : Nat} (r : circular_bit_array N) (i : Nat) : Bool :=
  let k := i + r.shift
  let k := if k > N then k - N else k
  r.data k

/-- circular_bit_array::put from decoder.h: overwrite the bit at the
write cursor, return the evicted bit, advance the cursor mod N. -/
def circular_bit_array.put {N : Nat} (r : circular_bit_array N) (b : Bool) :
    Bool × circular_bit_array N :=
  let result := r.data r.shift
  let data' := fun q => if q = r.shift then b else r.data q
  let shift' := r.shift + 1
  (result, ⟨data', if shift' = N then 0 else shift'⟩)

/-- A zero-initialized circular_bit_array, as produced by the default
member initializers in decoder.h. -/
def cbaInit (N : Nat) : circular_bit_array N := ⟨fun _ => false, 0⟩

/-- Feed a list of bits through successive puts. -/
def cba_run {N : Nat} (r : circular_bit_array N) (l : List Bool) : circular_bit_array N :=
  l.foldl (fun r b => (r.put b).2) r

/-- The wwvb_time struct of decoder.h: yday is int16_t, the other fields
int8_t.  All fields are modelled as Int; the stores that the source
performs into the narrow fields are wrapped explicitly where they occur. -/
structure wwvb_time where
  yday : Int
  year : Int
  hour : Int
  minute : Int
  second : Int
  ls : Int
  ly : Int
  dst : Int
  dut1 : Int
  deriving DecidableEq

/-- wwvb_time::seconds_in_minute from decoder.cpp. -/
def wwvb_time.seconds_in_minute (w : wwvb_time) : Int :=
  if w.ls ≠ 0 ∧ w.hour = 23 ∧ w.minute = 59 then
    let y := w.yday - w.ly
    if y = 181 ∨ y = 365 then (if w.dut1 < 0 then 61 else 59) else 60
  else 60

/-- The static isly helper of decoder.cpp (a 2000-based year), translated
conditional for conditional. -/
def isly (year : Int) : Bool :=
  if year % 400 ≠ 0 then true
  else if year % 100 ≠ 0 then false
  else if year % 4 ≠ 0 then false
  else true

/-- The static last_yday helper of decoder.cpp. -/
def last_yday (year : Int) : Int := 365 + (if isly year then 1 else 0)

/-- wwvb_time::advance_minutes from decoder.cpp.  The parameter n is part
of the source signature but is not read anywhere in the source body. -/
def wwvb_time.advance_minutes (w : wwvb_time) (n : Int) : wwvb_time :=
  let w :=
    if w.seconds_in_minute ≠ 60 then
      { w with ls := 0,
               dut1 := if w.dut1 < 0 then w.dut1 + 10
                       else if w.dut1 > 0 then w.dut1 - 10 else w.dut1 }
    else w
  let w := { w with second := 0, minute := w.minute + 1 }
  if w.minute < 60 then w
  else
    let w := { w with minute := 0, hour := w.hour + 1 }
    if w.hour < 24 then w
    else
      let w := { w with hour := 0, yday := w.yday + 1,
                        dst := if w.dst = 1 then 0
                               else if w.dst = 2 then 3 else w.dst }
      if w.yday < last_yday w.year then w
      else { w with yday := 1, year := w.year + 1,
                    ly := if isly (w.year + 1) then 1 else 0 }

/-- The while loop of wwvb_time::advance_seconds from decoder.cpp, with a
fuel argument for structural recursion.  Each executed iteration lowers
the running second count by at least 59, so any fuel of at least the
initial second count plus one makes the fuel case unreachable.  In the
fast-forward branch the source divides a value that the loop guard has
bounded below by 60, so integer division conventions agree there. -/
def advance_seconds_go : Nat → wwvb_time → Int → wwvb_time × Int
  | 0, w, second => (w, second)
  | fuel + 1, w, second =>
    if w.seconds_in_minute ≤ second then
      if w.ls ≠ 0 then
        advance_seconds_go fuel (w.advance_minutes 1) (second - w.seconds_in_minute)
      else
        advance_seconds_go fuel (w.advance_minutes (second / 60)) (second % 60)
    else (w, second)

/-- wwvb_time::advance_seconds from decoder.cpp. -/
def wwvb_time.advance_seconds (w : wwvb_time) (n : Int) : wwvb_time :=
  let second := w.second + n
  let r := advance_seconds_go (second.toNat + 1) w second
  { r.1 with second := r.2 }

/-- The minute-at-a-time path of advance_seconds: the loop body the source
executes while the leap-second flag is set, here applied unconditionally
so that it can be compared against the fast-forward path. -/
def advance_seconds_minutewise : Nat → wwvb_time → Int → wwvb_time × Int
  | 0, w, second => (w, second)
  | fuel + 1, w, second =>
    if w.seconds_in_minute ≤ second then
      advance_seconds_minutewise fuel (w.advance_minutes 1) (second - w.seconds_in_minute)
    else (w, second)

/-- wwvb_time::to_utc from decoder.cpp.  mktime is libc, outside this
repository; it is passed in as a function of tm_year, the only field of
the tm argument that to_utc varies (tm_mday is fixed at 1, the rest 0). -/
def wwvb_time.to_utc (mktime : Int → Int) (w : wwvb_time) : Int :=
  let t := mktime (100 + w.year)
  let t := t + (w.yday - 1) * 86400 + w.hour * 3600 + w.minute * 60
  t + (if w.second = 60 then 59 else w.second)

/-- Claim C1: the round-trip law fails in the source.  After seven puts
into a capacity-6 ring the write cursor is 1, and at(5) computes the
physical index 5 + 1 = 6, which the wrap test (strictly greater than N)
does not reduce, so at(5) reads the never-written bit 6 and returns false
even though the bit written one put ago (retained at physical slot 0) is
true.  The put side of the law does hold at this input: the seventh put
returns the evicted bit false. -/
theorem c1_bit_ring_at_wrap_miss :
    ((cba_run (cbaInit 6) [false, false, false, false, false, false, true]).at_ 5 = false)
  ∧ ((cba_run (cbaInit 6) [false, false, false, false, false, false, true]).data 0 = true)
  ∧ (((cba_run (cbaInit 6) [false, false, false, false, false, false]).put true).1 = false) := by
  decide

/-- Starting point for the year-rollover of claim C2: last day of
2000-based year 20, 23:59. -/
def w_c2 : wwvb_time := ⟨366, 20, 23, 59, 0, 0, 1, 0, 0⟩

/-- Claim C2: rolling the day past the end of year 20 recomputes ly with
isly, but isly returns true for 21 while the Gregorian rule makes
2000 + 21 a common year, so the recomputed flag contradicts the rule. -/
theorem c2_isly_not_gregorian :
    (w_c2.advance_minutes 1).year = 21
  ∧ (w_c2.advance_minutes 1).ly = 1
  ∧ ¬ ((((21 : Int) % 4 = 0) ∧ ¬ ((21 : Int) % 100 = 0)) ∨ (21 : Int) % 400 = 0) := by
  decide

/-- Starting point of the leap-second scenario of claim C5. -/
def w_c5 : wwvb_time := ⟨366, 16, 23, 59, 59, 1, 1, 0, -4⟩

/-- Claim C5: from day 366 of year 16 at 23:59:59 with ls=1, ly=1, dst=0,
dut1=-4, one advance_seconds gives second=60 with ls and dut1 untouched,
and a second advance_seconds gives second=0 with ls cleared and dut1
renormalized to 6. -/
theorem c5_leap_second_scenario :
    (w_c5.advance_seconds 1).second = 60
  ∧ (w_c5.advance_seconds 1).ls = 1
  ∧ (w_c5.advance_seconds 1).dut1 = -4
  ∧ ((w_c5.advance_seconds 1).advance_seconds 1).second = 0
  ∧ ((w_c5.advance_seconds 1).advance_seconds 1).ls = 0
  ∧ ((w_c5.advance_seconds 1).advance_seconds 1).dut1 = 6 := by
  decide

/-- Starting point for claim C9: midnight, no leap second pending. -/
def w_c9 : wwvb_time := ⟨1, 1, 0, 0, 0, 0, 1, 0, 0⟩

/-- Claim C9: with no leap second anywhere in the span, advancing 120
seconds should move the clock two minutes, and the minute-at-a-time loop
does; but the fast-forward path passes second / 60 = 2 to advance_minutes,
which ignores its argument and advances a single minute, so the two paths
disagree and the code loses a minute. -/
theorem c9_fast_forward_divergence :
    (w_c9.advance_seconds 120).minute = 1
  ∧ (w_c9.advance_seconds 120).second = 0
  ∧ (advance_seconds_minutewise 121 w_c9 120).1.minute = 2
  ∧ (advance_seconds_minutewise 121 w_c9 120).2 = 0 := by
  decide

/-- Claim C10: for any mktime behavior and any wwvb_time with second = 60,
to_utc adds 59 in place of the leap second, so the result coincides with
the same time at second = 59. -/
theorem c10_to_utc_leap_collapse (mktime : Int → Int) (w : wwvb_time)
    (h : w.second = 60) :
    wwvb_time.to_utc mktime w = wwvb_time.to_utc mktime { w with second := 59 } := by
  simp [wwvb_time.to_utc, h]

/-- Concrete time with an inserted leap second, for the witness below. -/
def w_c10 : wwvb_time := ⟨1, 0, 0, 0, 60, 1, 0, 0, -4⟩

/-- Witness for claim C10 at a concrete leap-second time. -/
theorem c10_to_utc_leap_collapse_witness :
    w_c10.second = 60 ∧
      wwvb_time.to_utc (fun _ => 0) w_c10
        = wwvb_time.to_utc (fun _ => 0) { w_c10 with second := 59 } :=
  ⟨rfl, c10_to_utc_leap_collapse (fun _ => 0) w_c10 rfl⟩

/-- The 2-bit circular symbol buffer circular_symbol_array of decoder.h,
built on a circular_bit_array of M * N bits. -/
structure circular_symbol_array (N M : Nat) where
  data : circular_bit_array (M * N)

/-- circular_symbol_array::at from decoder.h: assemble M consecutive bits,
most significant first. -/
def circular_symbol_array.at_ {N M : Nat} (a : circular_symbol_array N M) (i : Nat) : Nat :=
  (List.range M).foldl (fun result j => result * 2 + (a.data.at_ (i * M + j)).toNat) 0

/-- circular_symbol_array::put from decoder.h: write M consecutive bits,
most significant first, and assemble the M evicted bits the same way. -/
def circular_symbol_array.put {N M : Nat} (a : circular_symbol_array N M) (v : Nat) :
    Nat × circular_symbol_array N M :=
  let r := (List.range M).foldl
    (fun (st : Nat × Nat × circular_bit_array (M * N)) _ =>
      let p := st.2.2.put (Nat.testBit st.2.1 (M - 1))
      (st.1 * 2 + p.1.toNat, st.2.1 * 2, p.2))
    (0, v, a.data)
  (r.1, ⟨r.2.2⟩)

/-- The state of WWVBDecoder from decoder.h (default template parameters).
counts and edges are int16_t arrays of length SUBSEC, health_history a
uint8_t array of length SYMBOLS; both are modelled as functions and are
meaningful on indices below their length. -/
structure WWVBDecoder where
  sample_count : Nat
  symbol_count : Nat
  signal : circular_bit_array BUFFER
  counts : Nat → Int
  edges : Nat → Int
  health : Int
  health_history : Nat → Nat
  subsec : Nat
  sos : Nat
  tss : Nat
  symbols : circular_symbol_array SYMBOLS 2

/-- The zero-initialized decoder state (all member initializers in
decoder.h default to zero). -/
def WWVBDecoder.init : WWVBDecoder :=
  ⟨0, 0, cbaInit BUFFER, fun _ => 0, fun _ => 0, 0, fun _ => 0, 0, 0, 0,
    ⟨cbaInit (2 * SYMBOLS)⟩⟩

/-- WWVBDecoder::count from decoder.h: how many raw samples in the index
interval from i inclusive to j exclusive read true. -/
def WWVBDecoder.count (s : WWVBDecoder) (i j : Nat) : Nat :=
  Finset.sum (Finset.Ico i j) (fun k => (s.signal.at_ k).toNat)

/-- WWVBDecoder::ms_in_subsec from decoder.h. -/
def ms_in_subsec (ms : Nat) : Nat := (ms * SUBSEC + SUBSEC / 2) / 1000

/-- Boundary p0 of decoder.h. -/
def p0 : Nat := ms_in_subsec 0

/-- Boundary p1 of decoder.h. -/
def p1 : Nat := ms_in_subsec 200

/-- Boundary p2 of decoder.h. -/
def p2 : Nat := ms_in_subsec 500

/-- Boundary p3 of decoder.h. -/
def p3 : Nat := ms_in_subsec 800

/-- Boundary p4 of decoder.h. -/
def p4 : Nat := ms_in_subsec 1000

/-- Interval length la of decoder.h. -/
def la : Nat := p1 - p0

/-- Interval length lb of decoder.h. -/
def lb : Nat := p2 - p1

/-- Interval length lc of decoder.h. -/
def lc : Nat := p3 - p2

/-- Interval length ld of decoder.h. -/
def ld : Nat := p4 - p3

/-- Offset of the first sample of the just-completed second. -/
def OFFSET : Nat := BUFFER - SUBSEC

/-- The symbol classification nest of WWVBDecoder::decode_symbol: 2 is a
mark, 3 the nonsense symbol, 1 and 0 the binary values. -/
def classify (count_b count_c : Nat) : Nat :=
  if lc / 2 < count_c then
    if lb / 2 < count_b then 2 else 3
  else if lb / 2 < count_b then 1 else 0

/-- WWVBDecoder::check_health from decoder.h. -/
def check_health (count length : Int) (expect : Bool) : Int :=
  if expect then count else length - count

/-- The health contribution h computed inside WWVBDecoder::decode_symbol. -/
def symbol_health (s : WWVBDecoder) : Int :=
  let count_a := s.count (OFFSET + p0) (OFFSET + p1)
  let count_b := s.count (OFFSET + p1) (OFFSET + p2)
  let count_c := s.count (OFFSET + p2) (OFFSET + p3)
  let count_d := s.count (OFFSET + p3) (OFFSET + p4)
  let result := classify count_b count_c
  if result ≠ 3 then
    check_health (count_a : Int) (la : Int) true
      + check_health (count_b : Int) (lb : Int) (decide (result ≠ 0))
      + check_health (count_c : Int) (lc : Int) (decide (result = 2))
      + check_health (count_d : Int) (ld : Int) false
  else 0

/-- WWVBDecoder::decode_symbol from decoder.h: classify the just-completed
second, record the health contribution in the rolling history (stored into
a uint8_t slot) while updating the aggregate incrementally, and append the
symbol to the symbol ring. -/
def WWVBDecoder.decode_symbol (s : WWVBDecoder) : WWVBDecoder :=
  let result := classify (s.count (OFFSET + p1) (OFFSET + p2))
                         (s.count (OFFSET + p2) (OFFSET + p3))
  let h := symbol_health s
  let si := s.symbol_count % SYMBOLS
  let oh : Int := (s.health_history si : Int)
  { s with symbol_count := s.symbol_count + 1,
           health_history := fun i => if i = si then (h % 256).toNat else s.health_history i,
           health := s.health + (h - oh),
           symbols := (s.symbols.put result).2 }

/-- The advanced phase subsec1 computed in WWVBDecoder::update. -/
def next_subsec (s : WWVBDecoder) : Nat :=
  if s.subsec = SUBSEC - 1 then 0 else s.subsec + 1

/-- The counts array after the incremental step of WWVBDecoder::update:
the entry at the current phase goes up when a true sample replaces a false
one, down in the opposite case (int16_t arithmetic). -/
def counts_after (s : WWVBDecoder) (b : Bool) : Nat → Int :=
  let ob := (s.signal.put b).1
  fun i =>
    if i = s.subsec then
      if b ∧ ¬ob then int16_wrap (s.counts s.subsec + 1)
      else if ¬b ∧ ob then int16_wrap (s.counts s.subsec - 1)
      else s.counts s.subsec
    else s.counts i

/-- The edges array after the incremental step of WWVBDecoder::update. -/
def edges_after (s : WWVBDecoder) (b : Bool) : Nat → Int :=
  fun i =>
    if i = s.subsec then
      int16_wrap (counts_after s b (next_subsec s) - counts_after s b s.subsec)
    else s.edges i

/-- The sharpest-edge scan of WWVBDecoder::update: fold over all SUBSEC
edge entries keeping the first index attaining the strictly largest
positive value (starting from index 0 and threshold 0). -/
def best_scan (edges : Nat → Int) : Nat × Int :=
  (List.range SUBSEC).foldl (fun p i => if edges i > p.2 then (i, edges i) else p) (0, 0)

/-- The new start-of-second estimate computed in WWVBDecoder::update. -/
def sos_after (s : WWVBDecoder) (b : Bool) : Nat :=
  let bi := (best_scan (edges_after s b)).1
  if bi = SUBSEC - 1 then 0 else bi + 1

/-- The second-boundary decision of WWVBDecoder::update: forced when tss
exceeds SUBSEC, suppressed up to half of SUBSEC, otherwise declared when
the advanced phase meets the new or the previous start-of-second. -/
def boundary (s : WWVBDecoder) (b : Bool) : Bool :=
  if SUBSEC < s.tss then true
  else if SUBSEC / 2 < s.tss then
    decide (next_subsec s = sos_after s b) || decide (next_subsec s = s.sos)
  else false

/-- The state mutations of WWVBDecoder::update up to the boundary branch:
sample admitted, statistics updated, start-of-second re-estimated, phase
advanced, tss reset or incremented. -/
def step_state (s : WWVBDecoder) (b : Bool) : WWVBDecoder :=
  { s with sample_count := s.sample_count + 1,
           signal := (s.signal.put b).2,
           counts := counts_after s b,
           edges := edges_after s b,
           sos := sos_after s b,
           subsec := next_subsec s,
           tss := if boundary s b then 0 else s.tss + 1 }

/-- WWVBDecoder::update from decoder.h: admit one sample, update the
statistics, re-estimate the start of second, decide whether a second
boundary is declared, and on a boundary reset tss and decode the symbol. -/
def WWVBDecoder.update (s : WWVBDecoder) (b : Bool) : Bool × WWVBDecoder :=
  (boundary s b,
    if boundary s b then (step_state s b).decode_symbol else step_state s b)

/-- Decoder state with tss at exactly half of SUBSEC, otherwise initial. -/
def s_c4 : WWVBDecoder := { WWVBDecoder.init with tss := SUBSEC / 2 }

/-- Claim C4 counterexample: in state s_c4 the tick count since the last
boundary is exactly half of SUBSEC and the advanced subsec does equal the
current start-of-second estimate, yet update declares no boundary, because
the source requires tss to exceed half of SUBSEC strictly. -/
theorem c4_counterexample :
    (WWVBDecoder.update s_c4 false).1 = false
  ∧ SUBSEC / 2 ≤ s_c4.tss
  ∧ (WWVBDecoder.update s_c4 false).2.subsec = (WWVBDecoder.update s_c4 false).2.sos := by
  refine ⟨by decide, by decide, by decide⟩

/-- Claim C4 as amended: update declares a second boundary exactly when
tss exceeds SUBSEC, or tss strictly exceeds half of SUBSEC (integer
division) and the advanced subsec equals the new or the previous
start-of-second estimate; and tss is reset to zero exactly on a declared
boundary and incremented otherwise. -/
theorem c4_boundary_decision (s : WWVBDecoder) (b : Bool) :
    ((WWVBDecoder.update s b).1 = true
      ↔ (SUBSEC < s.tss ∨ (SUBSEC / 2 < s.tss
          ∧ (next_subsec s = sos_after s b ∨ next_subsec s = s.sos))))
  ∧ (WWVBDecoder.update s b).2.tss
      = (if (WWVBDecoder.update s b).1 then 0 else s.tss + 1) := by
  constructor
  · show boundary s b = true ↔ _
    unfold boundary
    split_ifs with h1 h2
    · simp [h1]
    · simp [h1, h2]
    · simp [h1, h2]
  · simp only [WWVBDecoder.update]
    by_cases h : boundary s b <;> simp [h, WWVBDecoder.decode_symbol, step_state]

/-- Case analysis of the classification nest of decode_symbol. -/
lemma classify_cases (cb cc : Nat) :
    (classify cb cc = 2 ↔ (lc / 2 < cc ∧ lb / 2 < cb))
  ∧ (classify cb cc = 3 ↔ (lc / 2 < cc ∧ cb ≤ lb / 2))
  ∧ (classify cb cc = 1 ↔ (cc ≤ lc / 2 ∧ lb / 2 < cb))
  ∧ (classify cb cc = 0 ↔ (cc ≤ lc / 2 ∧ cb ≤ lb / 2)) := by
  unfold classify
  split_ifs with h1 h2 <;>
    refine ⟨⟨?_, ?_⟩, ⟨?_, ?_⟩, ⟨?_, ?_⟩, ⟨?_, ?_⟩⟩ <;> intro h <;>
    first
    | omega
    | exact h.elim

/-- Claim C7: for every sample-ring content, the just-completed second is
classified MARK (2) exactly when both the third and the second interval
counts exceed half their lengths, INVALID (3) when only the third does,
ONE when only the second does, ZERO otherwise; and decode_symbol appends
exactly that classification to the symbol ring. -/
theorem c7_decode_symbol_classification (s : WWVBDecoder) :
    (classify (s.count (OFFSET + p1) (OFFSET + p2)) (s.count (OFFSET + p2) (OFFSET + p3)) = 2
      ↔ (lc / 2 < s.count (OFFSET + p2) (OFFSET + p3)
          ∧ lb / 2 < s.count (OFFSET + p1) (OFFSET + p2)))
  ∧ (classify (s.count (OFFSET + p1) (OFFSET + p2)) (s.count (OFFSET + p2) (OFFSET + p3)) = 3
      ↔ (lc / 2 < s.count (OFFSET + p2) (OFFSET + p3)
          ∧ s.count (OFFSET + p1) (OFFSET + p2) ≤ lb / 2))
  ∧ (classify (s.count (OFFSET + p1) (OFFSET + p2)) (s.count (OFFSET + p2) (OFFSET + p3)) = 1
      ↔ (s.count (OFFSET + p2) (OFFSET + p3) ≤ lc / 2
          ∧ lb / 2 < s.count (OFFSET + p1) (OFFSET + p2)))
  ∧ (classify (s.count (OFFSET + p1) (OFFSET + p2)) (s.count (OFFSET + p2) (OFFSET + p3)) = 0
      ↔ (s.count (OFFSET + p2) (OFFSET + p3) ≤ lc / 2
          ∧ s.count (OFFSET + p1) (OFFSET + p2) ≤ lb / 2))
  ∧ s.decode_symbol.symbols
      = (s.symbols.put (classify (s.count (OFFSET + p1) (OFFSET + p2))
          (s.count (OFFSET + p2) (OFFSET + p3)))).2 := by
  refine ⟨?_, ?_, ?_, ?_, rfl⟩
  · exact (classify_cases _ _).1
  · exact (classify_cases _ _).2.1
  · exact (classify_cases _ _).2.2.1
  · exact (classify_cases _ _).2.2.2

/-- Number of retained samples in a signal ring content whose phase within
their second is p and whose value is asserted.  Because BUFFER is a
multiple of SUBSEC and the write cursor and subsec advance in lockstep,
the sample stored at physical slot q was admitted at phase q mod SUBSEC. -/
def phase_card (data : Nat → Bool) (p : Nat) : Nat :=
  ((Finset.range BUFFER).filter (fun q => q % SUBSEC = p ∧ data q = true)).card

/-- Updating one point of a function shifts a range sum by the difference
at that point. -/
lemma sum_if_update (n q0 : Nat) (f : Nat → Int) (v : Int) (hq : q0 < n) :
    Finset.sum (Finset.range n) (fun q => if q = q0 then v else f q)
      = Finset.sum (Finset.range n) f + (v - f q0) := by
  have h1 : Finset.sum (Finset.range n) (fun q => if q = q0 then v else f q)
      = Finset.sum (Finset.range n) (fun q => f q + (if q = q0 then v - f q0 else 0)) := by
    apply Finset.sum_congr rfl
    intro x _
    by_cases hx : x = q0 <;> simp [hx]
  rw [h1, Finset.sum_add_distrib,
    Finset.sum_ite_eq' (Finset.range n) q0 (fun _ => v - f q0)]
  simp [Finset.mem_range.mpr hq]

/-- phase_card as an integer-valued indicator sum. -/
lemma phase_card_eq_sum (data : Nat → Bool) (p : Nat) :
    (phase_card data p : Int)
      = Finset.sum (Finset.range BUFFER)
          (fun q => if q % SUBSEC = p ∧ data q = true then (1 : Int) else 0) := by
  unfold phase_card
  rw [Finset.card_filter]
  push_cast
  apply Finset.sum_congr rfl
  intro x _
  split_ifs <;> simp

/-- phase_card never exceeds the buffer size. -/
lemma phase_card_le (data : Nat → Bool) (p : Nat) : phase_card data p ≤ BUFFER := by
  calc phase_card data p ≤ (Finset.range BUFFER).card := Finset.card_filter_le _ _
  _ = BUFFER := Finset.card_range _

/-- Overwriting one slot of the ring changes each phase count by the
difference of the indicator at that slot. -/
lemma phase_card_put (data : Nat → Bool) (q0 : Nat) (b : Bool) (hq : q0 < BUFFER) (p : Nat) :
    (phase_card (fun q => if q = q0 then b else data q) p : Int)
      = (phase_card data p : Int)
        + ((if q0 % SUBSEC = p ∧ b = true then (1 : Int) else 0)
           - (if q0 % SUBSEC = p ∧ data q0 = true then (1 : Int) else 0)) := by
  rw [phase_card_eq_sum, phase_card_eq_sum]
  have h1 : Finset.sum (Finset.range BUFFER)
      (fun q => if q % SUBSEC = p ∧ (if q = q0 then b else data q) = true then (1 : Int) else 0)
      = Finset.sum (Finset.range BUFFER)
      (fun q => if q = q0 then (if q0 % SUBSEC = p ∧ b = true then (1 : Int) else 0)
                else (if q % SUBSEC = p ∧ data q = true then (1 : Int) else 0)) := by
    apply Finset.sum_congr rfl
    intro x _
    by_cases hx : x = q0 <;> simp [hx]
  rw [h1, sum_if_update BUFFER q0 _ _ hq]

/-- int16_t conversion is the identity on representable values. -/
lemma int16_wrap_eq_self (x : Int) (h1 : -32768 ≤ x) (h2 : x < 32768) :
    int16_wrap x = x := by
  unfold int16_wrap
  omega

/-- decode_symbol does not touch the signal ring. -/
lemma decode_symbol_signal (s : WWVBDecoder) : s.decode_symbol.signal = s.signal := rfl

/-- decode_symbol does not touch the counts array. -/
lemma decode_symbol_counts (s : WWVBDecoder) : s.decode_symbol.counts = s.counts := rfl

/-- decode_symbol does not touch the phase counter. -/
lemma decode_symbol_subsec (s : WWVBDecoder) : s.decode_symbol.subsec = s.subsec := rfl

/-- Invariant tying counts to the ring content: the write cursor is in
range, subsec tracks the cursor mod SUBSEC, and each counts entry below
SUBSEC equals the number of retained asserted samples at that phase. -/
def CountsInv (s : WWVBDecoder) : Prop :=
  s.signal.shift < BUFFER ∧ s.subsec = s.signal.shift % SUBSEC ∧
    ∀ p, p < SUBSEC → s.counts p = (phase_card s.signal.data p : Int)

/-- States reachable from the freshly initialized decoder by update ticks;
the relation is also closed under bare decode_symbol emissions, which only
enlarges it. -/
inductive Reachable : WWVBDecoder → Prop where
  | init : Reachable WWVBDecoder.init
  | step (s : WWVBDecoder) (b : Bool) : Reachable s → Reachable (WWVBDecoder.update s b).2
  | emit (s : WWVBDecoder) : Reachable s → Reachable s.decode_symbol

/-- The invariant holds initially. -/
lemma countsInv_init : CountsInv WWVBDecoder.init := by
  refine ⟨?_, rfl, ?_⟩
  · show (0 : Nat) < BUFFER
    norm_num [BUFFER, SUBSEC, HISTORY]
  · intro p hp
    show (0 : Int) = _
    simp [phase_card, WWVBDecoder.init, cbaInit]

/-- The invariant is preserved by decode_symbol, which touches neither the
ring nor the statistics. -/
lemma countsInv_decode_symbol (s : WWVBDecoder) (h : CountsInv s) :
    CountsInv s.decode_symbol := by
  unfold CountsInv at h ⊢
  simp only [decode_symbol_signal, decode_symbol_counts, decode_symbol_subsec]
  exact h

/-- The invariant is preserved by the mutation part of one update tick. -/
lemma countsInv_step_state (s : WWVBDecoder) (b : Bool) (h : CountsInv s) :
    CountsInv (step_state s b) := by
  obtain ⟨hsh, hsub, hc⟩ := h
  have hshift : (step_state s b).signal.shift
      = (if s.signal.shift + 1 = BUFFER then 0 else s.signal.shift + 1) := rfl
  have hdata : (step_state s b).signal.data
      = fun q => if q = s.signal.shift then b else s.signal.data q := rfl
  refine ⟨?_, ?_, ?_⟩
  · rw [hshift]
    have hb0 : (0 : Nat) < BUFFER := by norm_num [BUFFER, SUBSEC, HISTORY]
    split_ifs <;> omega
  · show next_subsec s = _
    rw [hshift]
    unfold next_subsec
    rw [hsub]
    simp only [BUFFER, SUBSEC, HISTORY] at hsh ⊢
    split_ifs <;> omega
  · intro p hp
    show counts_after s b p = _
    rw [hdata, phase_card_put _ _ _ hsh]
    simp only [counts_after]
    have hob : (s.signal.put b).1 = s.signal.data s.signal.shift := rfl
    rw [hob, ← hsub]
    have hle : phase_card s.signal.data p ≤ 2000 := by
      have h2 := phase_card_le s.signal.data p
      norm_num [BUFFER, SUBSEC, HISTORY] at h2
      exact h2
    by_cases hps : p = s.subsec
    · subst hps
      have hcs := hc s.subsec hp
      cases b <;> cases hsd : s.signal.data s.signal.shift <;>
        simp [hsd] <;> rw [hcs] <;> (unfold int16_wrap; omega)
    · have hps' : ¬(s.subsec = p) := fun hh => hps hh.symm
      simp only [if_neg hps, if_neg (fun hh => hps' hh)]
      have : (if s.subsec = p ∧ b = true then (1 : Int) else 0) = 0 := by
        simp [hps']
      rw [this]
      have : (if s.subsec = p ∧ s.signal.data s.signal.shift = true then (1 : Int) else 0) = 0 := by
        simp [hps']
      rw [this, hc p hp]
      ring

/-- The invariant is preserved by a full update call. -/
lemma countsInv_update (s : WWVBDecoder) (b : Bool) (h : CountsInv s) :
    CountsInv (WWVBDecoder.update s b).2 := by
  have key := countsInv_step_state s b h
  by_cases hb : boundary s b = true <;> simp [WWVBDecoder.update, hb]
  · exact countsInv_decode_symbol _ key
  · exact key

/-- The invariant holds in every reachable state. -/
lemma countsInv_reachable (s : WWVBDecoder) (h : Reachable s) : CountsInv s := by
  induction h with
  | init => exact countsInv_init
  | step s b _ ih => exact countsInv_update s b ih
  | emit s _ ih => exact countsInv_decode_symbol s ih

/-- Claim C6: in every decoder state reachable from the initial state,
each counts entry below SUBSEC equals the number of retained samples in
the signal ring whose phase within their second is that entry's index and
whose value is asserted (the sample at physical slot q was admitted at
phase q mod SUBSEC, since the cursor and subsec advance in lockstep and
BUFFER is a multiple of SUBSEC). -/
theorem c6_counts_invariant (s : WWVBDecoder) (h : Reachable s)
    (p : Nat) (hp : p < SUBSEC) :
    s.counts p = (phase_card s.signal.data p : Int) :=
  (countsInv_reachable s h).2.2 p hp

/-- Witness for claim C6 at the initial state and phase 0. -/
theorem c6_counts_invariant_witness :
    Reachable WWVBDecoder.init ∧ 0 < SUBSEC
      ∧ WWVBDecoder.init.counts 0 = (phase_card WWVBDecoder.init.signal.data 0 : Int) :=
  ⟨Reachable.init, by norm_num [SUBSEC],
    c6_counts_invariant WWVBDecoder.init Reachable.init 0 (by norm_num [SUBSEC])⟩

/-- Interval boundary value. -/
lemma off0_eq : OFFSET + p0 = 1950 := rfl

/-- Interval boundary value. -/
lemma off1_eq : OFFSET + p1 = 1960 := rfl

/-- Interval boundary value. -/
lemma off2_eq : OFFSET + p2 = 1975 := rfl

/-- Interval boundary value. -/
lemma off3_eq : OFFSET + p3 = 1990 := rfl

/-- Interval boundary value. -/
lemma off4_eq : OFFSET + p4 = 2000 := rfl

/-- Interval length value. -/
lemma la_eq : la = 10 := rfl

/-- Interval length value. -/
lemma lb_eq : lb = 15 := rfl

/-- Interval length value. -/
lemma lc_eq : lc = 15 := rfl

/-- Interval length value. -/
lemma ld_eq : ld = 10 := rfl

/-- A count over an interval is at most the interval length. -/
lemma count_le (s : WWVBDecoder) (i j : Nat) : s.count i j ≤ j - i := by
  unfold WWVBDecoder.count
  calc Finset.sum (Finset.Ico i j) (fun k => (s.signal.at_ k).toNat)
      ≤ Finset.sum (Finset.Ico i j) (fun _ => 1) := by
        apply Finset.sum_le_sum
        intro k _
        cases s.signal.at_ k <;> simp
  _ = j - i := by simp [Nat.card_Ico]

/-- The health contribution of one second lies between 0 and 50. -/
lemma symbol_health_bounds (s : WWVBDecoder) :
    0 ≤ symbol_health s ∧ symbol_health s ≤ 50 := by
  have ha := count_le s (OFFSET + p0) (OFFSET + p1)
  have hb := count_le s (OFFSET + p1) (OFFSET + p2)
  have hc := count_le s (OFFSET + p2) (OFFSET + p3)
  have hd := count_le s (OFFSET + p3) (OFFSET + p4)
  rw [off0_eq, off1_eq] at ha
  rw [off1_eq, off2_eq] at hb
  rw [off2_eq, off3_eq] at hc
  rw [off3_eq, off4_eq] at hd
  norm_num at ha hb hc hd
  simp only [symbol_health, check_health, off0_eq, off1_eq, off2_eq, off3_eq, off4_eq,
    la_eq, lb_eq, lc_eq, ld_eq]
  split_ifs <;> constructor <;> omega

/-- The aggregate-health invariant of the claim. -/
def HealthInv (s : WWVBDecoder) : Prop :=
  s.health = Finset.sum (Finset.range SYMBOLS) (fun i => (s.health_history i : Int))

/-- decode_symbol maintains the aggregate as the sum of the history. -/
lemma healthInv_decode_symbol (s : WWVBDecoder) (h : HealthInv s) :
    HealthInv s.decode_symbol := by
  have hsi : s.symbol_count % SYMBOLS < SYMBOLS := Nat.mod_lt _ (by norm_num [SYMBOLS])
  have hbd := symbol_health_bounds s
  have hv : (((symbol_health s % 256).toNat : Nat) : Int) = symbol_health s := by
    have hself : symbol_health s % 256 = symbol_health s := by omega
    rw [hself, Int.toNat_of_nonneg hbd.1]
  show s.health + (symbol_health s - (s.health_history (s.symbol_count % SYMBOLS) : Int))
      = Finset.sum (Finset.range SYMBOLS)
          (fun i => (((if i = s.symbol_count % SYMBOLS then (symbol_health s % 256).toNat
                      else s.health_history i) : Nat) : Int))
  have hcongr : Finset.sum (Finset.range SYMBOLS)
      (fun i => (((if i = s.symbol_count % SYMBOLS then (symbol_health s % 256).toNat
                  else s.health_history i) : Nat) : Int))
      = Finset.sum (Finset.range SYMBOLS)
          (fun i => if i = s.symbol_count % SYMBOLS
                    then (((symbol_health s % 256).toNat : Nat) : Int)
                    else (s.health_history i : Int)) := by
    apply Finset.sum_congr rfl
    intro x _
    split_ifs <;> rfl
  rw [hcongr, sum_if_update SYMBOLS (s.symbol_count % SYMBOLS) _ _ hsi, hv, ← h]

/-- The mutation part of update leaves the health fields untouched. -/
lemma healthInv_step_state (s : WWVBDecoder) (b : Bool) (h : HealthInv s) :
    HealthInv (step_state s b) := h

/-- The aggregate-health invariant holds in every reachable state. -/
lemma healthInv_reachable (s : WWVBDecoder) (h : Reachable s) : HealthInv s := by
  induction h with
  | init =>
      show (0 : Int) = _
      simp [WWVBDecoder.init]
  | step s b _ ih =>
      by_cases hb : boundary s b = true <;> simp [WWVBDecoder.update, hb]
      · exact healthInv_decode_symbol _ (healthInv_step_state s b ih)
      · exact healthInv_step_state s b ih
  | emit s _ ih => exact healthInv_decode_symbol s ih

/-- Claim C8: after every sequence of symbol emissions, the aggregate
health field equals the sum of all SYMBOLS entries of the health history,
even though it is maintained incrementally. -/
theorem c8_health_aggregate (s : WWVBDecoder) (h : Reachable s) :
    s.health = Finset.sum (Finset.range SYMBOLS) (fun i => (s.health_history i : Int)) :=
  healthInv_reachable s h

/-- Witness for claim C8 at the initial state. -/
theorem c8_health_aggregate_witness :
    Reachable WWVBDecoder.init
      ∧ WWVBDecoder.init.health
          = Finset.sum (Finset.range SYMBOLS)
              (fun i => (WWVBDecoder.init.health_history i : Int)) :=
  ⟨Reachable.init, c8_health_aggregate WWVBDecoder.init Reachable.init⟩

/-- Symbol at position i of the last minute: symbols.at(SYMBOLS - 60 + i)
as read throughout decode_bcd and decode_minute. -/
def WWVBDecoder.symAt (dec : WWVBDecoder) (i : Nat) : Nat :=
  dec.symbols.at_ (SYMBOLS - 60 + i)

/-- The frame-skeleton loop of WWVBDecoder::decode_minute: position 0 and
every position 9 mod 10 must hold a mark and no other position may, and
the fixed always-zero positions must hold zero.  The source returns false
at the first violation; with no side effects in the loop this equals the
conjunction over all sixty positions. -/
def frame_ok (dec : WWVBDecoder) : Bool :=
  (List.range 60).all fun i =>
    let sym := dec.symAt i
    let mark_here := i == 0 || i % 10 == 9
    let zero_here := i % 10 == 4 || i == 10 || i == 11 || i == 20 || i == 21 || i == 35
    (mark_here == (sym == 2)) && (!zero_here || sym == 0)

/-- The four-position BCD helper decode_bcd of decoder.h; an argument of
-1 stands for an absent position, as with the source default arguments.
Returns the decade value together with this decade's contribution to the
bcderr flag (value above 9). -/
def WWVBDecoder.decode_bcd (dec : WWVBDecoder) (pd pc pb pa : Int) : Nat × Bool :=
  let r := (if pa ≥ 0 then dec.symAt pa.toNat * 8 else 0)
         + (if pb ≥ 0 then dec.symAt pb.toNat * 4 else 0)
         + (if pc ≥ 0 then dec.symAt pc.toNat * 2 else 0)
         + dec.symAt pd.toNat * 1
  (r, decide (9 < r))

/-- The final value of the bcderr flag over a full decode_minute call once
the skeleton has matched: some decade above 9, or a DUT1 sign code outside
2 and 5. -/
def minute_bcderr (dec : WWVBDecoder) : Bool :=
  (dec.decode_bcd 53 52 51 50).2 || (dec.decode_bcd 48 47 46 45).2
  || (dec.decode_bcd 33 32 31 30).2 || (dec.decode_bcd 28 27 26 25).2
  || (dec.decode_bcd 23 22 (-1) (-1)).2
  || (dec.decode_bcd 18 17 16 15).2 || (dec.decode_bcd 13 12 (-1) (-1)).2
  || (dec.decode_bcd 8 7 6 5).2 || (dec.decode_bcd 3 2 1 (-1)).2
  || (dec.decode_bcd 55 (-1) (-1) (-1)).2 || (dec.decode_bcd 56 (-1) (-1) (-1)).2
  || (dec.decode_bcd 58 57 (-1) (-1)).2
  || (dec.decode_bcd 43 42 41 40).2 || (dec.decode_bcd 38 37 36 (-1)).2
  || !((dec.decode_bcd 38 37 36 (-1)).1 == 2 || (dec.decode_bcd 38 37 36 (-1)).1 == 5)

/-- WWVBDecoder::decode_minute from decoder.h: skeleton check, then BCD
extraction of the fields into m (the narrowing stores into the int8_t and
int16_t fields made explicit), the returned flag meaning that no decade
overflowed and the DUT1 sign code was recognized.  As in the source, the
fields of m are written before the BCD and sign errors are inspected, and
only the dut1 field is skipped when the sign code is unrecognized. -/
def WWVBDecoder.decode_minute (dec : WWVBDecoder) (m : wwvb_time) : Bool × wwvb_time :=
  if frame_ok dec then
    let y1 := dec.decode_bcd 53 52 51 50
    let y2 := dec.decode_bcd 48 47 46 45
    let d1 := dec.decode_bcd 33 32 31 30
    let d2 := dec.decode_bcd 28 27 26 25
    let d3 := dec.decode_bcd 23 22 (-1) (-1)
    let h1 := dec.decode_bcd 18 17 16 15
    let h2 := dec.decode_bcd 13 12 (-1) (-1)
    let mi1 := dec.decode_bcd 8 7 6 5
    let mi2 := dec.decode_bcd 3 2 1 (-1)
    let lyv := dec.decode_bcd 55 (-1) (-1) (-1)
    let lsv := dec.decode_bcd 56 (-1) (-1) (-1)
    let dstv := dec.decode_bcd 58 57 (-1) (-1)
    let adut := dec.decode_bcd 43 42 41 40
    let sdut := dec.decode_bcd 38 37 36 (-1)
    let err := y1.2 || y2.2 || d1.2 || d2.2 || d3.2 || h1.2 || h2.2 || mi1.2 || mi2.2
      || lyv.2 || lsv.2 || dstv.2 || adut.2 || sdut.2
    let m := { m with year := int8_wrap ((y1.1 : Int) + 10 * (y2.1 : Int)),
                      yday := int16_wrap ((d1.1 : Int) + 10 * ((d2.1 : Int) + 10 * (d3.1 : Int))),
                      hour := int8_wrap ((h1.1 : Int) + 10 * (h2.1 : Int)),
                      minute := int8_wrap ((mi1.1 : Int) + 10 * (mi2.1 : Int)),
                      ly := int8_wrap (lyv.1 : Int),
                      ls := int8_wrap (lsv.1 : Int),
                      dst := int8_wrap (dstv.1 : Int),
                      second := 0 }
    if sdut.1 = 2 then (!err, { m with dut1 := int8_wrap (-(adut.1 : Int)) })
    else if sdut.1 = 5 then (!err, { m with dut1 := int8_wrap (adut.1 : Int) })
    else (false, m)
  else (false, m)

/-- Feed a list of symbols through successive puts. -/
def csa_run (a : circular_symbol_array SYMBOLS 2) (l : List Nat) :
    circular_symbol_array SYMBOLS 2 :=
  l.foldl (fun a v => (a.put v).2) a

/-- Sixty symbols matching the frame skeleton (marks at 0, 9, 19, ..., 59,
zeros at the required positions) with ones at positions 5 to 8, so that
the minute ones decade decodes to 15. -/
def syms_c3 : List Nat :=
  [2, 0, 0, 0, 0, 1, 1, 1, 1, 2,
   0, 0, 0, 0, 0, 0, 0, 0, 0, 2,
   0, 0, 0, 0, 0, 0, 0, 0, 0, 2,
   0, 0, 0, 0, 0, 0, 0, 0, 0, 2,
   0, 0, 0, 0, 0, 0, 0, 0, 0, 2,
   0, 0, 0, 0, 0, 0, 0, 0, 0, 2]

/-- Decoder whose symbol ring holds syms_c3. -/
def dec_c3 : WWVBDecoder :=
  { WWVBDecoder.init with symbols := csa_run ⟨cbaInit (2 * SYMBOLS)⟩ syms_c3 }

/-- All-zero out-parameter. -/
def m_c3 : wwvb_time := ⟨0, 0, 0, 0, 0, 0, 0, 0, 0⟩

/-- Claim C3 counterexample: on dec_c3 the skeleton matches, the minute
ones decade reads 15 which sets bcderr, and decode_minute returns failure;
yet the out-parameter has been modified (its minute field now holds 15),
so a failing path does expose a partially populated time. -/
theorem c3_counterexample :
    (dec_c3.decode_minute m_c3).1 = false
  ∧ (dec_c3.decode_minute m_c3).2.minute = 15
  ∧ m_c3.minute = 0 := by
  refine ⟨by decide, by decide, rfl⟩

/-- Claim C3 as amended: on a skeleton mismatch decode_minute returns
failure with the out-parameter untouched, and the returned flag is true
exactly when the skeleton matches and no BCD decade overflows and the
DUT1 sign code is recognized — so every failure is still signaled, but on
the BCD-overflow and DUT1-sign paths the fields of the out-parameter may
already have been overwritten. -/
theorem c3_decode_minute_failure (dec : WWVBDecoder) (m : wwvb_time) :
    (frame_ok dec = false → dec.decode_minute m = (false, m))
  ∧ ((dec.decode_minute m).1 = true
      ↔ (frame_ok dec = true ∧ minute_bcderr dec = false)) := by
  constructor
  · intro h
    simp [WWVBDecoder.decode_minute, h]
  · unfold WWVBDecoder.decode_minute minute_bcderr
    by_cases hf : frame_ok dec = true
    · simp only [hf, if_true, ite_true]
      by_cases h2 : (dec.decode_bcd 38 37 36 (-1)).1 = 2
      · simp [h2]
      · by_cases h5 : (dec.decode_bcd 38 37 36 (-1)).1 = 5
        · simp [h2, h5]
        · simp [h2, h5]
    · simp [hf]

/-- Witness for the amended claim C3: the all-zero decoder fails the
skeleton (position 0 holds no mark) and decode_minute hands back the
out-parameter unchanged. -/
theorem c3_decode_minute_failure_witness :
    frame_ok WWVBDecoder.init = false
  ∧ WWVBDecoder.init.decode_minute m_c3 = (false, m_c3) :=
  ⟨by decide, (c3_decode_minute_failure WWVBDecoder.init m_c3).1 (by decide)⟩
